import Mathlib

/-!
Verification of the slide-video pipeline in `video_generator.py`
(class `VideoGenerator`).

The embedding below translates the pipeline arithmetic into Lean:
Python floats become rationals (`ℚ`), Python `int(x)` on nonnegative
values becomes `Int.toNat ⌊x⌋`, Python lists become `List`, and code
that can raise becomes `Except`.  External collaborators (ffmpeg, cv2,
numpy, the TTS providers) are modelled at their call boundary: an
encoder invocation is represented by its exit code, a provider by a
function returning `Except`, and pixel measurement by an abstract
measure function.
-/

namespace VideoGen

/-! ## Per-slide duration decision

Embeds the two duration-decision sites:
`generate_slideshow_video` enforces a floor of 20.0 seconds
(`if audio_duration < 20.0: audio_duration = 20.0`), and
`generate_slideshow_video_structured` decides
`duration = max(uniform_seconds_per_slide, audio_durations[idx])`.
-/

/-- Embeds the minimum-duration enforcement of `generate_slideshow_video`:
`if audio_duration < 20.0: audio_duration = 20.0`. -/
def ensureMinSlideDuration (d : ℚ) : ℚ :=
  if d < 20 then 20 else d

/-- Embeds the per-slide decision of `generate_slideshow_video_structured`
line 839: `duration = max(uniform_seconds_per_slide, audio_durations[idx])`.
Python `max(a, b)` returns `b` exactly when `a < b`. -/
def decideSlideDuration (uniformFloor d : ℚ) : ℚ :=
  if uniformFloor < d then d else uniformFloor

/-! ## Global duration policy of `generate_slideshow_video_structured`

Embeds lines 828-836: `base_total = sum(max(6.0, d + 1.0) ...)`,
`desired_total = max(240.0, min(600.0, base_total))`,
`median_audio = sorted(audio_durations)[len(audio_durations)//2]`,
`uniform_seconds_per_slide = max(median_audio + 0.5, desired_total / num_slides)`.
-/

/-- Embeds `base_total = sum(max(6.0, d + 1.0) for d in audio_durations)`. -/
def baseTotal (durations : List ℚ) : ℚ :=
  (durations.map (fun d => max 6 (d + 1))).sum

/-- Embeds the desired-total clamp.  With `desired_total_seconds is None`
the code computes `max(240.0, min(600.0, base_total))`; otherwise the
explicit request is clamped the same way. -/
def desiredTotal (durations : List ℚ) (desiredTotalSeconds : Option ℚ) : ℚ :=
  match desiredTotalSeconds with
  | none => max 240 (min 600 (baseTotal durations))
  | some t => max 240 (min 600 t)

/-- Embeds `median_audio = sorted(audio_durations)[len(audio_durations)//2]
if audio_durations else seconds_per_slide`.  Python `sorted` produces the
ascending rearrangement; it is embedded by insertion sort, which produces
the same list. -/
def medianAudio (durations : List ℚ) (secondsPerSlide : ℚ) : ℚ :=
  if durations = [] then secondsPerSlide
  else (durations.insertionSort (· ≤ ·)).getD (durations.length / 2) 0

/-- Embeds `num_slides = max(1, len(slides))`; the code produces exactly one
probed audio duration per slide, so the slide count is the length of the
durations list. -/
def numSlides (durations : List ℚ) : ℕ :=
  max 1 durations.length

/-- Embeds `uniform_seconds_per_slide = max(median_audio + 0.5,
desired_total / float(num_slides))`. -/
def uniformSecondsPerSlide (durations : List ℚ) (secondsPerSlide : ℚ)
    (desiredTotalSeconds : Option ℚ) : ℚ :=
  max (medianAudio durations secondsPerSlide + 1/2)
    (desiredTotal durations desiredTotalSeconds / (numSlides durations : ℚ))

/-! ## Frame count and frame dimensions

Embeds `frames = int(duration * fps)` from
`generate_slideshow_video_structured` (line 845) and the geometry of
`_ken_burns_frame` (lines 523-543).  An image is represented by its
pixel dimensions; `cv2.resize(img, (a, b))` yields a `b × a` image and
numpy slicing `resized[y:y+h, x:x+w]` clamps at the array bounds.
-/

/-- Pixel dimensions of an image or frame (rows by columns). -/
structure ImageDims where
  h : ℕ
  w : ℕ
deriving DecidableEq

/-- Embeds `frames = int(duration * fps)`; Python `int` truncates and the
pipeline only forms nonnegative durations, so this is the floor. -/
def frameCount (duration : ℚ) (fps : ℕ) : ℕ :=
  (⌊duration * (fps : ℚ)⌋).toNat

/-- Embeds the final shape fix of `_ken_burns_frame`: when numpy slicing
produced an off-by-one crop, `crop = cv2.resize(crop, (width, height))`
forces the exact output size. -/
def fixCropDims (cropH cropW width height : ℕ) : ImageDims :=
  if cropH ≠ height ∨ cropW ≠ width then ⟨height, width⟩ else ⟨cropH, cropW⟩

/-- Embeds the dimension behaviour of `_ken_burns_frame`: cover-scaling,
the pan offsets, numpy slice clamping, and the final off-by-one fix. -/
def kenBurnsFrameDims (base : ImageDims) (width height : ℕ) (t total : ℚ) : ImageDims :=
  let startScale : ℚ := 21/20
  let endScale : ℚ := 23/20
  let alpha : ℚ := min 1 (max 0 (t / max (1/1000) total))
  let baseScale : ℚ :=
    max ((width : ℚ) / ((max 1 base.w : ℕ) : ℚ)) ((height : ℚ) / ((max 1 base.h : ℕ) : ℚ))
  let curScale : ℚ := baseScale * (startScale + (endScale - startScale) * alpha)
  let rw : ℕ := (⌊(base.w : ℚ) * curScale⌋).toNat
  let rh : ℕ := (⌊(base.h : ℚ) * curScale⌋).toNat
  let xOff : ℕ := min ((⌊((rw - width : ℕ) : ℚ) * alpha⌋).toNat) (rw - width)
  let yOff : ℕ := min ((⌊((rh - height : ℕ) : ℚ) * alpha⌋).toNat) (rh - height)
  let cropH : ℕ := min height (rh - yOff)
  let cropW : ℕ := min width (rw - xOff)
  fixCropDims cropH cropW width height

/-- Dimensions of the frame written at frame index f: a Ken Burns crop of
the background when one is present (`t = f / fps`), otherwise the solid
fallback frame `np.zeros((height, width, 3))`. -/
def frameDimsAt (bg : Option ImageDims) (width height fps : ℕ) (duration : ℚ)
    (f : ℕ) : ImageDims :=
  match bg with
  | some b => kenBurnsFrameDims b width height ((f : ℚ) / (fps : ℚ)) duration
  | none => ⟨height, width⟩

/-- Embeds the per-slide frame loop of `generate_slideshow_video_structured`
(lines 844-870): `frames = int(duration * fps)` iterations, each frame is
either a Ken Burns crop of a background or a solid `height × width` frame. -/
def renderedFrameDims (bg : Option ImageDims) (width height fps : ℕ)
    (duration : ℚ) : List ImageDims :=
  (List.range (frameCount duration fps)).map
    (frameDimsAt bg width height fps duration)

/-! ## Theorems for the duration decision (claim C2) -/

/-- C2: for a probed audio duration d, the decided slide duration is exactly
max(m, d) at both decision sites: `generate_slideshow_video` uses the
configured 20-second minimum, and `generate_slideshow_video_structured`
uses the uniform per-slide floor computed for the run. -/
theorem C2_duration_is_max (uniformFloor d : ℚ) :
    ensureMinSlideDuration d = max 20 d ∧
    decideSlideDuration uniformFloor d = max uniformFloor d := by
  constructor
  · unfold ensureMinSlideDuration
    rcases lt_or_le d 20 with h | h
    · rw [if_pos h, max_eq_left h.le]
    · rw [if_neg (not_lt.mpr h), max_eq_right h]
  · unfold decideSlideDuration
    rcases lt_or_le uniformFloor d with h | h
    · rw [if_pos h, max_eq_right h.le]
    · rw [if_neg (not_lt.mpr h), max_eq_left h]

/-! ## Theorems for the global duration policy (claim C6) -/

/-- States the standard median, following the words of the claim: the mean
of the two central elements of the sorted list when the length is even. -/
def specMedian (l : List ℚ) : ℚ :=
  let s := l.insertionSort (· ≤ ·)
  if l.length % 2 = 1 then s.getD (l.length / 2) 0
  else (s.getD (l.length / 2 - 1) 0 + s.getD (l.length / 2) 0) / 2

/-- C6 fails as stated: with speech durations [100, 300] the code picks the
upper median 300, giving a uniform duration of 300.5 seconds, while the
formula of the claim, using the standard median 200, gives 201 seconds. -/
theorem C6_uniform_duration_counterexample :
    uniformSecondsPerSlide [100, 300] 6 none = 601/2 ∧
    max (specMedian [100, 300] + 1/2)
      (desiredTotal [100, 300] none / ((2 : ℕ) : ℚ)) = 201 ∧
    (601/2 : ℚ) ≠ 201 := by
  refine ⟨?_, ?_, by norm_num⟩
  · simp only [uniformSecondsPerSlide, medianAudio, baseTotal, desiredTotal,
      numSlides, List.insertionSort, List.orderedInsert]
    rw [if_neg (show ([100, 300] : List ℚ) ≠ [] by decide)]
    norm_num [max_def]
  · simp only [specMedian, baseTotal, desiredTotal, List.insertionSort,
      List.orderedInsert]
    norm_num [List.getD]

/-- C6 amended: when no explicit total is requested and the durations list
is nonempty, the uniform per-slide duration equals
max(upper median + 0.5, desired_total / slide_count), where the upper
median is the element at index ⌊n/2⌋ of any ascending rearrangement of
the durations and desired_total clamps the derived sum into [240, 600]. -/
theorem C6_uniform_duration_amended (durations s : List ℚ) (m : ℚ)
    (hne : durations ≠ []) (hperm : s.Perm durations)
    (hsort : s.Sorted (· ≤ ·)) :
    uniformSecondsPerSlide durations m none =
      max (s.getD (durations.length / 2) 0 + 1/2)
        (max 240 (min 600 (baseTotal durations)) / (durations.length : ℚ)) := by
  have hs : s = durations.insertionSort (· ≤ ·) := by
    refine List.eq_of_perm_of_sorted ?_ hsort (List.sorted_insertionSort _ _)
    exact hperm.trans (List.perm_insertionSort _ _).symm
  have hn : numSlides durations = durations.length := by
    unfold numSlides
    have : 1 ≤ durations.length := List.length_pos.mpr hne
    omega
  unfold uniformSecondsPerSlide medianAudio desiredTotal
  rw [if_neg hne, hn, hs]

/-- C6 amended, witness at durations [1, 2, 3]. -/
theorem C6_uniform_duration_amended_witness :
    uniformSecondsPerSlide [1, 2, 3] 6 none =
      max ((List.getD [(1 : ℚ), 2, 3] ([(1 : ℚ), 2, 3].length / 2) 0) + 1/2)
        (max 240 (min 600 (baseTotal [1, 2, 3])) /
          (([(1 : ℚ), 2, 3].length : ℕ) : ℚ)) :=
  C6_uniform_duration_amended [1, 2, 3] [1, 2, 3] 6 (by decide)
    (List.Perm.refl _) (by decide)

/-! ## Theorems for frame count and frame dimensions (claim C3) -/

/-- Helper: the crop fix always yields the requested dimensions. -/
theorem fixCropDims_eq (cropH cropW width height : ℕ) :
    fixCropDims cropH cropW width height = ⟨height, width⟩ := by
  unfold fixCropDims
  split
  · rfl
  · next hcond =>
    push_neg at hcond
    rw [hcond.1, hcond.2]

/-- Helper: every Ken Burns frame has exactly the requested dimensions,
because the crop is clamped and, when rounding left it short, resized to
the exact target. -/
theorem kenBurnsFrameDims_eq (b : ImageDims) (width height : ℕ) (t total : ℚ) :
    kenBurnsFrameDims b width height t total = ⟨height, width⟩ := by
  unfold kenBurnsFrameDims
  exact fixCropDims_eq _ _ _ _

/-- C3 fails as stated: at duration 6.99 s and 30 fps the compositor writes
int(6.99 × 30) = 209 frames, while round(6.99 × 30) = 210. -/
theorem C3_frame_count_counterexample :
    (renderedFrameDims none 1280 720 30 (699/100)).length = 209 ∧
    round ((699/100 : ℚ) * (((30 : ℕ)) : ℚ)) = 210 ∧
    ((renderedFrameDims none 1280 720 30 (699/100)).length : ℤ) ≠
      round ((699/100 : ℚ) * (((30 : ℕ)) : ℚ)) := by
  have hfloor : (⌊(699/100 : ℚ) * (((30 : ℕ)) : ℚ)⌋ : ℤ) = 209 := by
    rw [Int.floor_eq_iff]
    push_cast
    norm_num
  have hlen : (renderedFrameDims none 1280 720 30 (699/100)).length = 209 := by
    unfold renderedFrameDims frameCount
    rw [List.length_map, List.length_range, hfloor]
    rfl
  have hround : round ((699/100 : ℚ) * (((30 : ℕ)) : ℚ)) = 210 := by
    rw [round_eq, Int.floor_eq_iff]
    push_cast
    norm_num
  refine ⟨hlen, hround, ?_⟩
  rw [hlen, hround]
  decide

/-- C3 amended: the compositor produces exactly ⌊duration × fps⌋ frames
(the count k is characterised by k ≤ duration × fps < k + 1), and every
produced frame has exactly the requested width × height dimensions. -/
theorem C3_frame_count_and_dims (bg : Option ImageDims) (width height fps : ℕ)
    (duration : ℚ) (hd : 0 ≤ duration) :
    (renderedFrameDims bg width height fps duration).length =
      frameCount duration fps ∧
    ((frameCount duration fps : ℚ) ≤ duration * (fps : ℚ) ∧
      duration * (fps : ℚ) < (frameCount duration fps : ℚ) + 1) ∧
    ∀ d ∈ renderedFrameDims bg width height fps duration,
      d = ImageDims.mk height width := by
  have hx : (0 : ℚ) ≤ duration * (fps : ℚ) :=
    mul_nonneg hd (by positivity)
  have hfl : (0 : ℤ) ≤ ⌊duration * (fps : ℚ)⌋ := Int.floor_nonneg.mpr hx
  have hcast : ((frameCount duration fps : ℕ) : ℚ) = (⌊duration * (fps : ℚ)⌋ : ℚ) := by
    unfold frameCount
    exact_mod_cast congrArg (fun z : ℤ => (z : ℚ)) (Int.toNat_of_nonneg hfl)
  refine ⟨?_, ⟨?_, ?_⟩, ?_⟩
  · unfold renderedFrameDims
    rw [List.length_map, List.length_range]
  · rw [hcast]
    exact Int.floor_le _
  · rw [hcast]
    exact Int.lt_floor_add_one (duration * (fps : ℚ))
  · intro d hmem
    unfold renderedFrameDims at hmem
    rw [List.mem_map] at hmem
    obtain ⟨f, _, hf⟩ := hmem
    rw [← hf]
    cases bg with
    | none => rfl
    | some b => exact kenBurnsFrameDims_eq _ _ _ _ _

/-- C3 amended, witness at duration 2 s, 30 fps, 1280 × 720. -/
theorem C3_frame_count_and_dims_witness :
    (renderedFrameDims (some ⟨600, 800⟩) 1280 720 30 2).length =
      frameCount 2 30 ∧
    ((frameCount 2 30 : ℚ) ≤ 2 * ((30 : ℕ) : ℚ) ∧
      2 * ((30 : ℕ) : ℚ) < (frameCount 2 30 : ℚ) + 1) ∧
    ∀ d ∈ renderedFrameDims (some ⟨600, 800⟩) 1280 720 30 2,
      d = ImageDims.mk 720 1280 :=
  C3_frame_count_and_dims (some ⟨600, 800⟩) 1280 720 30 2 (by norm_num)

/-! ## Per-slide mux step (claim C1)

Embeds lines 874-899 of `generate_slideshow_video_structured`: for each
slide the silent video and its audio are merged by an ffmpeg subprocess.
The subprocess is represented by its exit code.  On exit code 0 the muxed
file joins the segment list; otherwise the code logs the error and
appends the silent video instead (`# Fallback: use video without audio`).
When imageio-ffmpeg is unavailable a `RuntimeError` is raised.
-/

/-- Per-slide segment handed to concatenation: either the muxed file of
slide i (video plus audio) or the silent video of slide i (no audio). -/
inductive SegmentFile where
  | muxed (i : ℕ)
  | silent (i : ℕ)
deriving DecidableEq

/-- Embeds the branch on `result.returncode` after the mux subprocess. -/
def muxSegment (idx : ℕ) (exitCode : ℤ) : SegmentFile :=
  if exitCode = 0 then .muxed idx else .silent idx

/-- Embeds the segment-collection loop over the slides: `exitCodes` holds
the mux exit code of each slide in order, `idx` the index of the first
remaining slide. -/
def muxLoop (ffmpegAvailable : Bool) : ℕ → List ℤ → Except String (List SegmentFile)
  | _, [] => .ok []
  | idx, c :: cs =>
    if ffmpegAvailable then
      match muxLoop ffmpegAvailable (idx + 1) cs with
      | .ok rest => .ok (muxSegment idx c :: rest)
      | .error e => .error e
    else
      .error "FFmpeg (imageio-ffmpeg) not available for structured slideshow generation."

/-- C1 fails as stated: a single slide whose mux subprocess exits with
code 1 does not abort the pipeline; the loop succeeds and hands the
audio-less silent video of slide 0 to concatenation. -/
theorem C1_mux_failure_counterexample :
    muxLoop true 0 [1] = Except.ok [SegmentFile.silent 0] ∧
    SegmentFile.silent 0 ∈ [SegmentFile.silent 0] := by
  exact ⟨rfl, by decide⟩

/-- C1 amended: with ffmpeg available, the mux loop never fails; every
slide contributes exactly one segment, and a slide whose mux subprocess
exits non-zero contributes its silent (audio-less) video, which is passed
on to concatenation. -/
theorem C1_mux_failure_not_fatal (codes : List ℤ) (idx : ℕ) :
    muxLoop true idx codes =
      Except.ok ((List.enumFrom idx codes).map (fun p => muxSegment p.1 p.2)) ∧
    ∀ i : ℕ, ∀ c : ℤ, c ≠ 0 → muxSegment i c = SegmentFile.silent i := by
  constructor
  · induction codes generalizing idx with
    | nil => rfl
    | cons c cs ih =>
      unfold muxLoop
      rw [if_pos rfl, ih (idx + 1)]
      rfl
  · intro i c hc
    unfold muxSegment
    rw [if_neg hc]

/-- C1 amended, witness: two slides with exit codes 0 and 2. -/
theorem C1_mux_failure_not_fatal_witness :
    muxLoop true 0 [0, 2] =
      Except.ok ((List.enumFrom 0 [(0 : ℤ), 2]).map (fun p => muxSegment p.1 p.2)) ∧
    muxSegment 1 2 = SegmentFile.silent 1 :=
  ⟨(C1_mux_failure_not_fatal [0, 2] 0).1,
    (C1_mux_failure_not_fatal [0, 2] 0).2 1 2 (by decide)⟩

/-! ## Final concatenation and cleanup (claim C5)

Embeds lines 903-935 of `generate_slideshow_video_structured`: the
manifest (concat list file) is written, the concat subprocess runs, a
non-zero exit raises `RuntimeError("Failed to create final video: ...")`
immediately, and only on the success path are the per-slide temp files
and the manifest unlinked.
-/

/-- Disk artifacts of one pipeline run. -/
inductive PipelineFile where
  | silentVideo (i : ℕ)
  | audioFile (i : ℕ)
  | muxedVideo (i : ℕ)
  | manifest
  | finalOutput
deriving DecidableEq

/-- The per-slide temporary files present when concatenation starts:
`temp_silent_videos + temp_audios + temp_av_videos`. -/
def slideTempFiles (n : ℕ) : List PipelineFile :=
  (List.range n).flatMap
    (fun i => [PipelineFile.silentVideo i, PipelineFile.audioFile i, PipelineFile.muxedVideo i])

/-- Embeds the concatenation step: manifest written, subprocess run with
the given exit code, `RuntimeError` on non-zero exit (before any cleanup),
cleanup of slide temp files and manifest only on the success path.  The
second component is the list of files on disk afterwards. -/
def concatPhase (n : ℕ) (exitCode : ℤ) : Except String String × List PipelineFile :=
  let disk0 := slideTempFiles n ++ [PipelineFile.manifest]
  if exitCode ≠ 0 then
    (.error "Failed to create final video", disk0)
  else
    let disk1 := disk0 ++ [PipelineFile.finalOutput]
    let disk2 := disk1.filter (fun f => decide (f ∉ slideTempFiles n))
    let disk3 := disk2.filter (fun f => f ≠ PipelineFile.manifest)
    (.ok "output_path", disk3)

/-- C5 fails as stated: for one slide and concat exit code 1 the error
propagates, but no deletion is attempted at all — the muxed segment and
the manifest are both still on disk when the error is raised. -/
theorem C5_cleanup_on_failure_counterexample :
    (concatPhase 1 1).1 = Except.error "Failed to create final video" ∧
    PipelineFile.muxedVideo 0 ∈ (concatPhase 1 1).2 ∧
    PipelineFile.manifest ∈ (concatPhase 1 1).2 ∧
    (concatPhase 1 1).2 =
      [PipelineFile.silentVideo 0, PipelineFile.audioFile 0,
        PipelineFile.muxedVideo 0, PipelineFile.manifest] := by
  refine ⟨rfl, by decide, by decide, by decide⟩

/-- C5 amended: on a non-zero concat exit the pipeline raises an explicit
error and performs no cleanup — every per-slide temp file and the
manifest remain on disk; on exit 0 all per-slide temp files and the
manifest are deleted and only the final output remains. -/
theorem C5_concat_failure_and_cleanup (n : ℕ) (exitCode : ℤ) :
    (exitCode ≠ 0 →
      concatPhase n exitCode =
        (Except.error "Failed to create final video",
          slideTempFiles n ++ [PipelineFile.manifest])) ∧
    (exitCode = 0 →
      concatPhase n exitCode = (Except.ok "output_path", [PipelineFile.finalOutput])) := by
  have hmem : ∀ f ∈ slideTempFiles n, f ≠ PipelineFile.manifest ∧
      f ≠ PipelineFile.finalOutput := by
    intro f hf
    unfold slideTempFiles at hf
    rw [List.mem_flatMap] at hf
    obtain ⟨i, _, hfi⟩ := hf
    simp only [List.mem_cons, List.not_mem_nil, or_false] at hfi
    rcases hfi with h | h | h <;> subst h <;> exact ⟨by simp, by simp⟩
  constructor
  · intro h
    unfold concatPhase
    rw [if_pos h]
  · intro h
    unfold concatPhase
    rw [if_neg (by omega : ¬ exitCode ≠ 0)]
    have h1 : (slideTempFiles n).filter
        (fun f => decide (f ∉ slideTempFiles n)) = [] := by
      rw [List.filter_eq_nil_iff]
      intro f hf
      simp [hf]
    have hmani : PipelineFile.manifest ∉ slideTempFiles n :=
      fun hin => (hmem _ hin).1 rfl
    have hfin : PipelineFile.finalOutput ∉ slideTempFiles n :=
      fun hin => (hmem _ hin).2 rfl
    simp only [List.filter_append, List.filter_cons, h1, hmani, hfin]
    simp [hmani, hfin]

/-- C5 amended, witness: two slides, exit 0 on the success side and
exit 1 on the failure side are exercised in separate runs. -/
theorem C5_concat_failure_and_cleanup_witness :
    concatPhase 2 0 = (Except.ok "output_path", [PipelineFile.finalOutput]) :=
  (C5_concat_failure_and_cleanup 2 0).2 rfl

/-! ## Text-to-speech with fallback (claim C7)

Embeds `text_to_speech` (lines 936-981): when ElevenLabs is importable
and an API key is configured, the premium provider is tried first with a
voice chosen from the explicit name, the gender hint, or the default; any
exception falls through to the gTTS call.  A gTTS failure escapes through
the outer handler, which logs and re-raises.  Providers are modelled as
functions returning `Except`; the call trace is returned alongside the
result so invocation order and arguments are part of the embedding.
-/

/-- The two speech providers of `text_to_speech`. -/
inductive TTSProvider where
  | elevenLabs
  | gtts
deriving DecidableEq

/-- One provider invocation: which provider, with which text and voice. -/
structure TTSCall where
  provider : TTSProvider
  text : String
  voice : Option String
deriving DecidableEq

/-- Embeds Python truthiness of an optional string (`None` and the empty
string are falsy). -/
def truthyStr : Option String → Bool
  | none => false
  | some s => s ≠ ""

/-- Embeds the voice selection: an explicit voice name wins, else the
gender hint maps to Adam or Rachel, else Adam. -/
def chooseVoiceId (voiceName voiceGender : Option String) : String :=
  if truthyStr voiceName then voiceName.getD ""
  else if truthyStr voiceGender then
    if (voiceGender.getD "").toLower.startsWith "m" then "Adam" else "Rachel"
  else "Adam"

/-- Environment of `text_to_speech`: whether the ElevenLabs import
succeeded, the configured API key, and the behaviour of the two side
channels (ElevenLabs generate-and-save given voice and text; gTTS save
given text). -/
structure TTSEnv where
  elevenAvailable : Bool
  apiKey : Option String
  premium : String → String → Except String Unit
  fallback : String → Except String Unit

/-- Embeds `text_to_speech`: returns the result (the output path on
success, the propagated error otherwise) together with the ordered list
of provider invocations. -/
def textToSpeech (env : TTSEnv) (text outputPath : String)
    (voiceGender voiceName : Option String) :
    Except String String × List TTSCall :=
  if env.elevenAvailable && truthyStr env.apiKey then
    let vid := chooseVoiceId voiceName voiceGender
    match env.premium vid text with
    | .ok _ => (.ok outputPath, [⟨.elevenLabs, text, some vid⟩])
    | .error _ =>
      match env.fallback text with
      | .ok _ =>
        (.ok outputPath, [⟨.elevenLabs, text, some vid⟩, ⟨.gtts, text, none⟩])
      | .error e =>
        (.error e, [⟨.elevenLabs, text, some vid⟩, ⟨.gtts, text, none⟩])
  else
    match env.fallback text with
    | .ok _ => (.ok outputPath, [⟨.gtts, text, none⟩])
    | .error e => (.error e, [⟨.gtts, text, none⟩])

/-- C7: if the configured premium provider raises, the fallback is invoked
exactly once with the same text; the call returns the output path whenever
the fallback succeeds, and the fallback error propagates otherwise. -/
theorem C7_tts_fallback (env : TTSEnv) (text outputPath : String)
    (voiceGender voiceName : Option String) (e : String)
    (hav : env.elevenAvailable = true)
    (hkey : truthyStr env.apiKey = true)
    (hfail : env.premium (chooseVoiceId voiceName voiceGender) text = .error e) :
    (textToSpeech env text outputPath voiceGender voiceName).2 =
      [⟨.elevenLabs, text, some (chooseVoiceId voiceName voiceGender)⟩,
        ⟨.gtts, text, none⟩] ∧
    ((textToSpeech env text outputPath voiceGender voiceName).2.filter
      (fun c => c.provider = TTSProvider.gtts)).length = 1 ∧
    (∀ u : Unit, env.fallback text = .ok u →
      (textToSpeech env text outputPath voiceGender voiceName).1 =
        .ok outputPath) ∧
    (∀ e2 : String, env.fallback text = .error e2 →
      (textToSpeech env text outputPath voiceGender voiceName).1 =
        .error e2) := by
  have hcond : (env.elevenAvailable && truthyStr env.apiKey) = true := by
    rw [hav, hkey]
    rfl
  refine ⟨?_, ?_, ?_, ?_⟩
  all_goals simp only [textToSpeech, hcond, if_true, hfail]
  · cases hfb : env.fallback text <;> rfl
  · cases hfb : env.fallback text <;> rfl
  · intro u hu
    rw [hu]
  · intro e2 he2
    rw [he2]

/-- Environment used by the C7 witness: premium provider always raising,
fallback always succeeding. -/
def ttsEnvEx : TTSEnv :=
  ⟨true, some "k", fun _ _ => Except.error "quota", fun _ => Except.ok ()⟩

/-- C7 witness: a concrete environment whose premium provider always
fails and whose fallback always succeeds. -/
theorem C7_tts_fallback_witness :
    (textToSpeech ttsEnvEx "hello" "/tmp/out.mp3" none none).2 =
      [⟨TTSProvider.elevenLabs, "hello", some (chooseVoiceId none none)⟩,
        ⟨TTSProvider.gtts, "hello", none⟩] ∧
    ((textToSpeech ttsEnvEx "hello" "/tmp/out.mp3" none none).2.filter
      (fun c => c.provider = TTSProvider.gtts)).length = 1 ∧
    (∀ u : Unit, ttsEnvEx.fallback "hello" = Except.ok u →
      (textToSpeech ttsEnvEx "hello" "/tmp/out.mp3" none none).1 =
        Except.ok "/tmp/out.mp3") ∧
    (∀ e2 : String, ttsEnvEx.fallback "hello" = Except.error e2 →
      (textToSpeech ttsEnvEx "hello" "/tmp/out.mp3" none none).1 =
        Except.error e2) :=
  C7_tts_fallback ttsEnvEx "hello" "/tmp/out.mp3" none none "quota"
    rfl (by decide) rfl

/-! ## Script parsing (claim C8)

Embeds `_parse_markdown_script` (lines 437-472) and
`_parse_explainer_script` (lines 474-502).  Text is represented as lists
of characters; `str.strip()` becomes `trimChars`, `str.split("\n")`
becomes `splitOnNl` and `str.splitlines()` becomes `splitLinesPy`.
-/

/-- Embeds Python `str.strip()`: removes leading and trailing whitespace. -/
def trimChars (s : List Char) : List Char :=
  ((s.dropWhile Char.isWhitespace).reverse.dropWhile Char.isWhitespace).reverse

/-- Embeds Python `str.split("\n")`: consecutive separators produce empty
pieces and the result is never empty. -/
def splitOnNl : List Char → List (List Char)
  | [] => [[]]
  | c :: cs =>
    if c = '\n' then [] :: splitOnNl cs
    else
      match splitOnNl cs with
      | [] => [[c]]
      | l :: ls => (c :: l) :: ls

/-- Embeds Python `str.splitlines()` for newline-separated text: like
split, but an empty string yields no lines and a trailing newline does
not open a final empty line. -/
def splitLinesPy (s : List Char) : List (List Char) :=
  if s = [] then []
  else if s.getLast? = some '\n' then (splitOnNl s).dropLast
  else splitOnNl s

/-- Slide record built by `_parse_markdown_script`:
`{'title': ..., 'bullets': [], 'subtopics': [], 'narration': ''}`. -/
structure MdSlide where
  title : List Char
  bullets : List (List Char)
  subtopics : List (List Char)
  narration : List Char
deriving DecidableEq

/-- Embeds the line loop of `_parse_markdown_script`: `###` opens a new
slide (pushing the previous one), `-` appends a bullet to the current
slide, anything else is ignored; the final slide is pushed whenever one
exists — the non-empty slide dict is always truthy, so no emptiness test
occurs. -/
def mdGo : List (List Char) → Option MdSlide → List MdSlide
  | [], cur =>
    match cur with
    | none => []
    | some s => [s]
  | l0 :: rest, cur =>
    let line := trimChars l0
    if line = [] then mdGo rest cur
    else if ['#', '#', '#'].isPrefixOf line then
      let ns : MdSlide := ⟨trimChars (line.drop 3), [], [], []⟩
      match cur with
      | none => mdGo rest (some ns)
      | some s => s :: mdGo rest (some ns)
    else if ['-'].isPrefixOf line && cur.isSome then
      match cur with
      | some s =>
        mdGo rest (some ⟨s.title, s.bullets ++ [trimChars (line.drop 1)],
          s.subtopics, s.narration⟩)
      | none => mdGo rest cur
    else mdGo rest cur

/-- Embeds `_parse_markdown_script`: strip, split into lines, fold. -/
def parseMarkdownScript (script : List Char) : List MdSlide :=
  mdGo (splitOnNl (trimChars script)) none

/-- Slide record built by `_parse_explainer_script`:
`{"title": None, "bullets": []}`. -/
structure ExSlide where
  title : Option (List Char)
  bullets : List (List Char)
deriving DecidableEq

/-- Embeds Python truthiness of the title field: `None` and the empty
string are falsy. -/
def truthyTitle : Option (List Char) → Bool
  | none => false
  | some t => !t.isEmpty

/-- Embeds the push guard `if current["title"] or current["bullets"]`. -/
def exKeep (cur : ExSlide) : Bool :=
  truthyTitle cur.title || !cur.bullets.isEmpty

/-- Embeds Python `line.replace("###", "")`: removes every non-overlapping
occurrence, scanning left to right. -/
def removeHashes : List Char → List Char
  | '#' :: '#' :: '#' :: rest => removeHashes rest
  | c :: rest => c :: removeHashes rest
  | [] => []

/-- Embeds the line loop of `_parse_explainer_script`: `### ` starts a new
slide (pushing the previous one only if it has a truthy title or a
bullet), `- ` appends a bullet, any other non-empty line is appended as a
bullet; the final slide is pushed under the same guard. -/
def exGo : List (List Char) → ExSlide → List ExSlide
  | [], cur => if exKeep cur then [cur] else []
  | l0 :: rest, cur =>
    let line := trimChars l0
    if line = [] then exGo rest cur
    else if ['#', '#', '#', ' '].isPrefixOf line then
      (if exKeep cur then [cur] else []) ++
        exGo rest ⟨some (trimChars (removeHashes line)), []⟩
    else if ['-', ' '].isPrefixOf line then
      exGo rest ⟨cur.title, cur.bullets ++ [trimChars (line.drop 2)]⟩
    else
      exGo rest ⟨cur.title, cur.bullets ++ [line]⟩

/-- Embeds `_parse_explainer_script`. -/
def parseExplainerScript (script : List Char) : List ExSlide :=
  exGo (splitLinesPy script) ⟨none, []⟩

/-- C8 fails as stated for `_parse_markdown_script`: the script "###"
produces a slide with an empty title and no bullets, which is kept in the
output because the slide dict is always truthy. -/
theorem C8_markdown_empty_slide_counterexample :
    parseMarkdownScript ['#', '#', '#'] = [MdSlide.mk [] [] [] []] ∧
    MdSlide.mk [] [] [] [] ∈ parseMarkdownScript ['#', '#', '#'] := by
  decide

/-- Helper: every slide emitted by the explainer loop passes the push
guard. -/
theorem exGo_mem_keep (lines : List (List Char)) (cur : ExSlide) :
    ∀ s ∈ exGo lines cur, exKeep s = true := by
  induction lines generalizing cur with
  | nil =>
    intro s hs
    unfold exGo at hs
    by_cases hk : exKeep cur = true
    · rw [if_pos hk, List.mem_singleton] at hs
      subst hs
      exact hk
    · rw [if_neg hk] at hs
      cases hs
  | cons l0 rest ih =>
    intro s hs
    unfold exGo at hs
    by_cases h1 : trimChars l0 = []
    · rw [if_pos h1] at hs
      exact ih cur s hs
    · rw [if_neg h1] at hs
      by_cases h2 : (['#', '#', '#', ' '].isPrefixOf (trimChars l0)) = true
      · rw [if_pos h2] at hs
        rw [List.mem_append] at hs
        rcases hs with hs | hs
        · by_cases hk : exKeep cur = true
          · rw [if_pos hk, List.mem_singleton] at hs
            subst hs
            exact hk
          · rw [if_neg hk] at hs
            cases hs
        · exact ih _ s hs
      · rw [if_neg h2] at hs
        by_cases h3 : (['-', ' '].isPrefixOf (trimChars l0)) = true
        · rw [if_pos h3] at hs
          exact ih _ s hs
        · rw [if_neg h3] at hs
          exact ih _ s hs

/-- C8 amended: every slide returned by `_parse_explainer_script` has a
truthy (non-empty) title or at least one bullet, and a slide with neither
is dropped without error; `_parse_markdown_script`, however, keeps a
slide whose header has no title text even when no bullets follow. -/
theorem C8_explainer_slides_nonempty (script : List Char) :
    ∀ s ∈ parseExplainerScript script,
      truthyTitle s.title = true ∨ s.bullets ≠ [] := by
  intro s hs
  have hk := exGo_mem_keep (splitLinesPy script) ⟨none, []⟩ s hs
  unfold exKeep at hk
  rw [Bool.or_eq_true] at hk
  rcases hk with h | h
  · exact Or.inl h
  · right
    intro hnil
    rw [hnil] at h
    cases h

/-- C8 amended, witness: the single-line script "a" yields one slide with
no title and the bullet "a". -/
theorem C8_explainer_slides_nonempty_witness :
    truthyTitle (ExSlide.mk none [['a']]).title = true ∨
      (ExSlide.mk none [['a']]).bullets ≠ [] :=
  C8_explainer_slides_nonempty ['a'] (ExSlide.mk none [['a']]) (by decide)

/-! ## Word wrapping (claim C4)

Embeds `_wrap_text_to_width` (lines 545-561).  The text is a list of
characters; `text.replace("\n", " ")` is a character map, `str.split()`
splits on whitespace runs, and the pixel measurement performed by
`cv2.getTextSize(candidate, FONT, font_scale, thickness)[0][0]` is
abstracted into a measure function — the font, scale and thickness of
the claim are folded into that function, which the theorems quantify
over.
-/

/-- Embeds `text.replace("\n", " ")` (a single-character substitution). -/
def nlToSpace (s : List Char) : List Char :=
  s.map (fun c => if c = '\n' then ' ' else c)

/-- Worker for Python `str.split()`: accumulates the current word in
reverse, flushing it at every whitespace run. -/
def splitWsAux : List Char → List Char → List (List Char)
  | [], acc => if acc = [] then [] else [acc.reverse]
  | c :: cs, acc =>
    if c.isWhitespace then
      if acc = [] then splitWsAux cs [] else acc.reverse :: splitWsAux cs []
    else splitWsAux cs (c :: acc)

/-- Embeds Python `str.split()`: the whitespace-separated words, with no
empty pieces. -/
def splitWs (s : List Char) : List (List Char) :=
  splitWsAux s []

/-- A word produced by splitting: non-empty and free of whitespace. -/
def IsWord (w : List Char) : Prop :=
  w ≠ [] ∧ ∀ c ∈ w, c.isWhitespace = false

/-- Joining text pieces with single spaces (how the loop builds candidate
lines, and how the claim joins the produced lines back together). -/
def wordJoin : List (List Char) → List Char
  | [] => []
  | [w] => w
  | w :: x :: ws => w ++ ' ' :: wordJoin (x :: ws)

/-- A line built by the wrap loop: a single-space join of one or more
words. -/
def IsLine (l : List Char) : Prop :=
  ∃ ws, ws ≠ [] ∧ (∀ w ∈ ws, IsWord w) ∧ l = wordJoin ws

/-- Embeds the greedy loop of `_wrap_text_to_width`: extend the current
line while the measured candidate fits, otherwise flush the line and
start over from the current word. -/
def wrapGo (measure : List Char → ℕ) (maxW : ℕ) :
    List (List Char) → List (List Char) → List Char → List (List Char)
  | [], lines, current => if current = [] then lines else lines ++ [current]
  | w :: ws, lines, current =>
    let candidate := if current = [] then w else trimChars (current ++ ' ' :: w)
    if measure candidate ≤ maxW then wrapGo measure maxW ws lines candidate
    else wrapGo measure maxW ws (if current = [] then lines else lines ++ [current]) w

/-- Embeds `_wrap_text_to_width`. -/
def wrapTextToWidth (measure : List Char → ℕ) (text : List Char) (maxW : ℕ) :
    List (List Char) :=
  wrapGo measure maxW (splitWs (nlToSpace text)) [] []

/-- Helper: splitting distributes over a space separator. -/
theorem splitWsAux_append_space (b : List Char) :
    ∀ (a acc : List Char),
      splitWsAux (a ++ ' ' :: b) acc = splitWsAux a acc ++ splitWsAux b [] := by
  intro a
  induction a with
  | nil =>
    intro acc
    by_cases h : acc = []
    · simp [splitWsAux, h]
    · simp [splitWsAux, h]
  | cons c cs ih =>
    intro acc
    by_cases hws : c.isWhitespace
    · by_cases h : acc = [] <;> simp [splitWsAux, hws, h, ih]
    · simp [splitWsAux, hws, ih]

/-- Helper: every piece produced by the splitter is a word. -/
theorem splitWsAux_words :
    ∀ (l acc : List Char), (∀ c ∈ acc, c.isWhitespace = false) →
      ∀ w ∈ splitWsAux l acc, IsWord w := by
  intro l
  induction l with
  | nil =>
    intro acc hacc w hw
    by_cases h : acc = []
    · simp [splitWsAux, h] at hw
    · rw [splitWsAux, if_neg h, List.mem_singleton] at hw
      subst hw
      refine ⟨by simpa using h, ?_⟩
      intro c hc
      exact hacc c (List.mem_reverse.mp hc)
  | cons c cs ih =>
    intro acc hacc w hw
    by_cases hws : c.isWhitespace
    · rw [splitWsAux, if_pos hws] at hw
      by_cases h : acc = []
      · rw [if_pos h] at hw
        exact ih [] (by simp) w hw
      · rw [if_neg h, List.mem_cons] at hw
        rcases hw with hw | hw
        · subst hw
          refine ⟨by simpa using h, ?_⟩
          intro d hd
          exact hacc d (List.mem_reverse.mp hd)
        · exact ih [] (by simp) w hw
    · rw [splitWsAux, if_neg hws] at hw
      refine ih (c :: acc) ?_ w hw
      intro d hd
      rcases List.mem_cons.mp hd with hd | hd
      · subst hd
        simpa using hws
      · exact hacc d hd

/-- Helper: splitting whitespace-free text yields the single piece back. -/
theorem splitWsAux_all_nonws :
    ∀ (l acc : List Char), (∀ c ∈ l, c.isWhitespace = false) →
      (acc ≠ [] ∨ l ≠ []) → splitWsAux l acc = [acc.reverse ++ l] := by
  intro l
  induction l with
  | nil =>
    intro acc _ hne
    rcases hne with h | h
    · simp [splitWsAux, h]
    · exact absurd rfl h
  | cons c cs ih =>
    intro acc hl _
    have hc : c.isWhitespace = false := hl c (List.mem_cons_self _ _)
    rw [splitWsAux, if_neg (by simp [hc])]
    rw [ih (c :: acc) (fun d hd => hl d (List.mem_cons_of_mem _ hd)) (Or.inl (by simp))]
    simp

/-- Helper: a single word splits to itself. -/
theorem splitWs_word {w : List Char} (hw : IsWord w) : splitWs w = [w] := by
  unfold splitWs
  rw [splitWsAux_all_nonws w [] hw.2 (Or.inr hw.1)]
  simp

/-- Helper: replacing newlines by spaces does not change the word split. -/
theorem splitWsAux_nlToSpace :
    ∀ (l acc : List Char), splitWsAux (nlToSpace l) acc = splitWsAux l acc := by
  intro l
  induction l with
  | nil => intro acc; rfl
  | cons c cs ih =>
    intro acc
    have hstep : nlToSpace (c :: cs) = (if c = '\n' then ' ' else c) :: nlToSpace cs := rfl
    rw [hstep]
    by_cases hnl : c = '\n'
    · rw [if_pos hnl, hnl]
      have e1 : splitWsAux (' ' :: nlToSpace cs) acc =
          if acc = [] then splitWsAux (nlToSpace cs) []
          else acc.reverse :: splitWsAux (nlToSpace cs) [] := by
        rw [splitWsAux, if_pos (show (' ').isWhitespace = true from rfl)]
      have e2 : splitWsAux ('\n' :: cs) acc =
          if acc = [] then splitWsAux cs []
          else acc.reverse :: splitWsAux cs [] := by
        rw [splitWsAux, if_pos (show ('\n').isWhitespace = true from rfl)]
      rw [e1, e2]
      simp only [ih]
    · rw [if_neg hnl, splitWsAux, splitWsAux]
      by_cases hws : c.isWhitespace = true
      · rw [if_pos hws, if_pos hws]
        by_cases h : acc = []
        · rw [if_pos h, if_pos h, ih]
        · rw [if_neg h, if_neg h, ih]
      · rw [if_neg hws, if_neg hws, ih]

/-- Helper: joining after appending one more word. -/
theorem wordJoin_snoc :
    ∀ (ws : List (List Char)) (w : List Char), ws ≠ [] →
      wordJoin (ws ++ [w]) = wordJoin ws ++ ' ' :: w := by
  intro ws
  induction ws with
  | nil => intro w h; exact absurd rfl h
  | cons a t ih =>
    intro w _
    cases t with
    | nil => rfl
    | cons b t2 =>
      have h2 : wordJoin ((a :: b :: t2) ++ [w]) =
          a ++ ' ' :: wordJoin ((b :: t2) ++ [w]) := rfl
      have h3 : wordJoin (a :: b :: t2) = a ++ ' ' :: wordJoin (b :: t2) := rfl
      rw [h2, ih w (by simp), h3]
      simp

/-- Helper: splitting a space join recovers the splits of the pieces. -/
theorem splitWs_wordJoin :
    ∀ L : List (List Char), splitWs (wordJoin L) = L.flatMap splitWs := by
  intro L
  induction L with
  | nil => rfl
  | cons w t ih =>
    cases t with
    | nil => simp [wordJoin]
    | cons x t2 =>
      have h1 : wordJoin (w :: x :: t2) = w ++ ' ' :: wordJoin (x :: t2) := rfl
      rw [h1]
      unfold splitWs
      rw [splitWsAux_append_space]
      unfold splitWs at ih
      rw [ih]
      rfl

/-- Helper: a line starts with a non-whitespace character. -/
theorem isLine_head {l : List Char} (hl : IsLine l) :
    ∃ c t, l = c :: t ∧ c.isWhitespace = false := by
  obtain ⟨ws, hne, hw, rfl⟩ := hl
  cases ws with
  | nil => exact absurd rfl hne
  | cons w rest =>
    obtain ⟨hwne, hchars⟩ := hw w (List.mem_cons_self _ _)
    cases w with
    | nil => exact absurd rfl hwne
    | cons c t =>
      have hc : c.isWhitespace = false := hchars c (List.mem_cons_self _ _)
      cases rest with
      | nil => exact ⟨c, t, rfl, hc⟩
      | cons x t2 => exact ⟨c, t ++ ' ' :: wordJoin (x :: t2), rfl, hc⟩

/-- Helper: reversing a join is joining the reversed pieces in reverse
order. -/
theorem wordJoin_reverse :
    ∀ ws : List (List Char),
      (wordJoin ws).reverse = wordJoin ((ws.map List.reverse).reverse) := by
  intro ws
  induction ws with
  | nil => rfl
  | cons w t ih =>
    cases t with
    | nil => rfl
    | cons x t2 =>
      have h1 : wordJoin (w :: x :: t2) = w ++ ' ' :: wordJoin (x :: t2) := rfl
      have hne : (((x :: t2).map List.reverse).reverse : List (List Char)) ≠ [] := by
        simp
      have h2 : ((w :: x :: t2).map List.reverse).reverse =
          ((x :: t2).map List.reverse).reverse ++ [w.reverse] := by
        simp
      rw [h1, h2, wordJoin_snoc _ _ hne, ← ih]
      rw [List.reverse_append, List.reverse_cons, List.append_assoc]
      rfl

/-- Helper: lines are preserved by reversal. -/
theorem isLine_reverse {l : List Char} (hl : IsLine l) : IsLine l.reverse := by
  obtain ⟨ws, hne, hw, rfl⟩ := hl
  refine ⟨(ws.map List.reverse).reverse, by simpa using hne, ?_, wordJoin_reverse ws⟩
  intro w hwmem
  rw [List.mem_reverse, List.mem_map] at hwmem
  obtain ⟨v, hv, rfl⟩ := hwmem
  obtain ⟨hvne, hvchars⟩ := hw v hv
  refine ⟨by simpa using hvne, ?_⟩
  intro c hc
  exact hvchars c (List.mem_reverse.mp hc)

/-- Helper: stripping a line is the identity. -/
theorem trimChars_isLine {l : List Char} (hl : IsLine l) : trimChars l = l := by
  obtain ⟨c, t, hct, hc⟩ := isLine_head hl
  obtain ⟨d, u, hdu, hd⟩ := isLine_head (isLine_reverse hl)
  unfold trimChars
  rw [hct, List.dropWhile_cons, if_neg (by simp [hc])]
  rw [← hct, hdu, List.dropWhile_cons, if_neg (by simp [hd])]
  rw [← hdu, List.reverse_reverse]

/-- Helper: extending a line by one word through a single space. -/
theorem line_extend {current w : List Char} (hline : IsLine current)
    (hw : IsWord w) :
    trimChars (current ++ ' ' :: w) = current ++ ' ' :: w ∧
    IsLine (current ++ ' ' :: w) ∧
    splitWs (current ++ ' ' :: w) = splitWs current ++ [w] := by
  obtain ⟨ws0, hne, hws0, hj⟩ := hline
  have hline2 : IsLine (current ++ ' ' :: w) := by
    refine ⟨ws0 ++ [w], by simp, ?_, ?_⟩
    · intro v hv
      rcases List.mem_append.mp hv with h | h
      · exact hws0 v h
      · rw [List.mem_singleton] at h
        subst h
        exact hw
    · rw [wordJoin_snoc ws0 w hne, hj]
  refine ⟨trimChars_isLine hline2, hline2, ?_⟩
  unfold splitWs
  rw [splitWsAux_append_space]
  rw [show splitWsAux w [] = splitWs w from rfl, splitWs_word hw]

/-- Helper: a single word is a line. -/
theorem isLine_of_isWord {w : List Char} (hw : IsWord w) : IsLine w :=
  ⟨[w], by simp, by simpa using hw, rfl⟩

/-- Helper: every line the greedy loop emits either fits the budget or is
one of the given words. -/
theorem wrapGo_width (measure : List Char → ℕ) (maxW : ℕ)
    (allW : List (List Char)) :
    ∀ (ws lines : List (List Char)) (current : List Char),
      (∀ l ∈ lines, measure l ≤ maxW ∨ l ∈ allW) →
      (current = [] ∨ measure current ≤ maxW ∨ current ∈ allW) →
      (∀ w ∈ ws, w ∈ allW) →
      ∀ l ∈ wrapGo measure maxW ws lines current, measure l ≤ maxW ∨ l ∈ allW := by
  intro ws
  induction ws with
  | nil =>
    intro lines current hlines hcur _ l hl
    unfold wrapGo at hl
    by_cases hc : current = []
    · rw [if_pos hc] at hl
      exact hlines l hl
    · rw [if_neg hc] at hl
      rcases List.mem_append.mp hl with h | h
      · exact hlines l h
      · rw [List.mem_singleton] at h
        subst h
        exact hcur.resolve_left hc
  | cons w ws ih =>
    intro lines current hlines hcur hws l hl
    have hwall : w ∈ allW := hws w (List.mem_cons_self _ _)
    have hwsall : ∀ v ∈ ws, v ∈ allW := fun v hv => hws v (List.mem_cons_of_mem _ hv)
    by_cases hc : current = []
    · subst hc
      have key : wrapGo measure maxW (w :: ws) lines [] =
          wrapGo measure maxW ws lines w := by
        rw [wrapGo]
        simp
      rw [key] at hl
      exact ih lines w hlines (Or.inr (Or.inr hwall)) hwsall l hl
    · unfold wrapGo at hl
      rw [if_neg hc] at hl
      by_cases hm : measure (trimChars (current ++ ' ' :: w)) ≤ maxW
      · rw [if_pos hm] at hl
        exact ih lines _ hlines (Or.inr (Or.inl hm)) hwsall l hl
      · rw [if_neg hm, if_neg hc] at hl
        refine ih (lines ++ [current]) w ?_ (Or.inr (Or.inr hwall)) hwsall l hl
        intro v hv
        rcases List.mem_append.mp hv with h | h
        · exact hlines v h
        · rw [List.mem_singleton] at h
          subst h
          exact hcur.resolve_left hc

/-- Helper: flattening the emitted lines back into words recovers the
remaining input words. -/
theorem wrapGo_flat (measure : List Char → ℕ) (maxW : ℕ) :
    ∀ (ws lines : List (List Char)) (current : List Char),
      (∀ w ∈ ws, IsWord w) →
      (current = [] ∨ IsLine current) →
      (wrapGo measure maxW ws lines current).flatMap splitWs =
        lines.flatMap splitWs ++ (splitWs current ++ ws) := by
  intro ws
  induction ws with
  | nil =>
    intro lines current _ hcur
    unfold wrapGo
    by_cases hc : current = []
    · rw [if_pos hc, hc]
      simp [splitWs, splitWsAux]
    · rw [if_neg hc]
      simp
  | cons w ws ih =>
    intro lines current hws hcur
    have hw : IsWord w := hws w (List.mem_cons_self _ _)
    have hwstail : ∀ v ∈ ws, IsWord v := fun v hv => hws v (List.mem_cons_of_mem _ hv)
    by_cases hc : current = []
    · subst hc
      have key : wrapGo measure maxW (w :: ws) lines [] =
          wrapGo measure maxW ws lines w := by
        rw [wrapGo]
        simp
      rw [key, ih lines w hwstail (Or.inr (isLine_of_isWord hw)), splitWs_word hw]
      simp [splitWs, splitWsAux]
    · have hline : IsLine current := hcur.resolve_left hc
      obtain ⟨htrim, hlinec, hsplitc⟩ := line_extend hline hw
      unfold wrapGo
      rw [if_neg hc, htrim]
      by_cases hm : measure (current ++ ' ' :: w) ≤ maxW
      · rw [if_pos hm]
        rw [ih lines _ hwstail (Or.inr hlinec), hsplitc]
        simp
      · rw [if_neg hm, if_neg hc]
        rw [ih (lines ++ [current]) w hwstail (Or.inr (isLine_of_isWord hw))]
        rw [splitWs_word hw, List.flatMap_append]
        simp

/-- C4 fails as stated: with a width measure of 10 pixels per character
and a budget of 15 pixels, the single word "hello" is emitted as a line
measuring 50 pixels, above the budget — a word that alone exceeds the
budget is never broken. -/
theorem C4_wrap_width_counterexample :
    wrapTextToWidth (fun l => 10 * l.length) ['h', 'e', 'l', 'l', 'o'] 15 =
      [['h', 'e', 'l', 'l', 'o']] ∧
    ¬ (∀ l ∈ wrapTextToWidth (fun l => 10 * l.length) ['h', 'e', 'l', 'l', 'o'] 15,
        10 * l.length ≤ 15) := by
  decide

/-- C4 amended: for every measure function, budget and input, each
produced line either fits the budget or is a single input word (whose own
measured width exceeds the budget), and joining the produced lines with
single spaces reproduces the word sequence of the input exactly. -/
theorem C4_wrap_lines (measure : List Char → ℕ) (text : List Char) (maxW : ℕ) :
    (∀ l ∈ wrapTextToWidth measure text maxW,
      measure l ≤ maxW ∨ l ∈ splitWs text) ∧
    splitWs (wordJoin (wrapTextToWidth measure text maxW)) = splitWs text := by
  have hnl : splitWs (nlToSpace text) = splitWs text :=
    splitWsAux_nlToSpace text []
  have hwords : ∀ w ∈ splitWs (nlToSpace text), IsWord w :=
    splitWsAux_words (nlToSpace text) [] (by simp)
  constructor
  · intro l hl
    refine wrapGo_width measure maxW (splitWs text)
      (splitWs (nlToSpace text)) [] [] (by simp) (Or.inl rfl) ?_ l hl
    intro w hw
    rw [← hnl]
    exact hw
  · rw [splitWs_wordJoin]
    unfold wrapTextToWidth
    rw [wrapGo_flat measure maxW (splitWs (nlToSpace text)) [] [] hwords (Or.inl rfl)]
    rw [← hnl]
    simp [splitWs, splitWsAux]

/-- C4 amended, witness: measure is the character count, text "ab cd",
budget 5; the single produced line is "ab cd". -/
theorem C4_wrap_lines_witness :
    ((fun l : List Char => l.length) ['a', 'b', ' ', 'c', 'd'] ≤ 5 ∨
      ['a', 'b', ' ', 'c', 'd'] ∈ splitWs ['a', 'b', ' ', 'c', 'd']) ∧
    splitWs (wordJoin (wrapTextToWidth (fun l : List Char => l.length)
        ['a', 'b', ' ', 'c', 'd'] 5)) =
      splitWs ['a', 'b', ' ', 'c', 'd'] :=
  ⟨(C4_wrap_lines (fun l => l.length) ['a', 'b', ' ', 'c', 'd'] 5).1
      ['a', 'b', ' ', 'c', 'd'] (by decide),
    (C4_wrap_lines (fun l => l.length) ['a', 'b', ' ', 'c', 'd'] 5).2⟩

/-! ## Background cache (claims C9 and C10)

Embeds `_create_notebooklm_backgrounds` (lines 1344-1426) and
`_get_notebooklm_background` (lines 1464-1472).  Numpy arrays live on a
heap: `GenState.store` is the heap (a reference is an index into it) and
`notebooklm_backgrounds` maps each category to the references of its
pre-rendered gradients, fixed at construction.  `.copy()` allocates a
fresh heap cell holding the same pixels; in-place rendering on a frame is
a write through its reference.  The pixel synthesis itself
(`_create_gradient_background`, float and square-root arithmetic over
numpy) is abstracted into the parameter `mk`, applied to exactly the
arguments the source passes: width 1920, height 1080, the two
category-table colours, and the cycling direction string. -/

/-- Pixel content of a background image: rows of BGR values. -/
def Image : Type := List (List (ℕ × ℕ × ℕ))

instance : DecidableEq Image := by
  unfold Image
  infer_instance

/-- The gradient direction cycle `['vertical', 'horizontal', 'diagonal',
'radial']`. -/
def directions : List String :=
  ["vertical", "horizontal", "diagonal", "radial"]

/-- The colour-pair table of `_create_notebooklm_backgrounds`, verbatim. -/
def gradientConfigs : List (String × List ((ℕ × ℕ × ℕ) × (ℕ × ℕ × ℕ))) :=
  [("default",
    [((41, 128, 185), (142, 68, 173)),
     ((52, 152, 219), (155, 89, 182)),
     ((44, 62, 80), (52, 73, 94))]),
   ("technology",
    [((41, 128, 185), (142, 68, 173)),
     ((52, 152, 219), (155, 89, 182)),
     ((44, 62, 80), (52, 73, 94)),
     ((26, 188, 156), (46, 204, 113)),
     ((52, 73, 94), (44, 62, 80))]),
   ("science",
    [((231, 76, 60), (192, 57, 43)),
     ((230, 126, 34), (211, 84, 0)),
     ((241, 196, 15), (243, 156, 18)),
     ((46, 204, 113), (39, 174, 96)),
     ((155, 89, 182), (142, 68, 173))]),
   ("business",
    [((52, 73, 94), (44, 62, 80)),
     ((149, 165, 166), (127, 140, 141)),
     ((41, 128, 185), (52, 73, 94)),
     ((26, 188, 156), (22, 160, 133)),
     ((155, 89, 182), (142, 68, 173))]),
   ("education",
    [((52, 152, 219), (41, 128, 185)),
     ((46, 204, 113), (39, 174, 96)),
     ((241, 196, 15), (243, 156, 18)),
     ((230, 126, 34), (211, 84, 0)),
     ((155, 89, 182), (142, 68, 173))]),
   ("health",
    [((231, 76, 60), (192, 57, 43)),
     ((46, 204, 113), (39, 174, 96)),
     ((52, 152, 219), (41, 128, 185)),
     ((241, 196, 15), (243, 156, 18)),
     ((155, 89, 182), (142, 68, 173))]),
   ("arts",
    [((231, 76, 60), (192, 57, 43)),
     ((155, 89, 182), (142, 68, 173)),
     ((241, 196, 15), (243, 156, 18)),
     ((46, 204, 113), (39, 174, 96)),
     ((230, 126, 34), (211, 84, 0))]),
   ("nature",
    [((46, 204, 113), (39, 174, 96)),
     ((26, 188, 156), (22, 160, 133)),
     ((52, 152, 219), (41, 128, 185)),
     ((241, 196, 15), (243, 156, 18)),
     ((230, 126, 34), (211, 84, 0))]),
   ("space",
    [((44, 62, 80), (52, 73, 94)),
     ((142, 68, 173), (155, 89, 182)),
     ((41, 128, 185), (52, 152, 219)),
     ((52, 73, 94), (44, 62, 80)),
     ((155, 89, 182), (142, 68, 173))])]

/-- Embeds `_create_notebooklm_backgrounds`: for each category, render one
gradient per colour pair at 1920 x 1080, cycling the direction with the
pair index. -/
def createNotebooklmBackgrounds
    (mk : ℕ → ℕ → (ℕ × ℕ × ℕ) → (ℕ × ℕ × ℕ) → String → Image) :
    List (String × List Image) :=
  gradientConfigs.map (fun p =>
    (p.1, p.2.enum.map (fun q =>
      mk 1920 1080 q.2.1 q.2.2
        (directions.getD (q.1 % directions.length) "vertical"))))

/-- Heap-of-arrays state of a `VideoGenerator` instance: the store holds
every live numpy array (a reference is an index), and the cache maps each
category to the references of its pre-rendered backgrounds. -/
structure GenState where
  store : List Image
  cacheIdx : List (String × List ℕ)

/-- Allocates the images of one category at the end of the store and
records their references under the category key. -/
def addCategory (s : GenState) (cat : String) (imgs : List Image) : GenState :=
  { store := s.store ++ imgs,
    cacheIdx := s.cacheIdx ++
      [(cat, (List.range imgs.length).map (fun j => s.store.length + j))] }

/-- State of a freshly constructed generator: all gradients rendered once
in `__init__` and cached per category. -/
def initState (mk : ℕ → ℕ → (ℕ × ℕ × ℕ) → (ℕ × ℕ × ℕ) → String → Image) :
    GenState :=
  (createNotebooklmBackgrounds mk).foldl
    (fun s p => addCategory s p.1 p.2) ⟨[], []⟩

/-- Embeds the category lookup of `_get_notebooklm_background`: an unknown
category falls back to `'default'`. -/
def lookupRefs (cacheIdx : List (String × List ℕ)) (cat : String) : List ℕ :=
  match cacheIdx.find? (fun p => p.1 == cat) with
  | some p => p.2
  | none =>
    match cacheIdx.find? (fun p => p.1 == "default") with
    | some p => p.2
    | none => []

/-- Embeds `_get_notebooklm_background`: select the cached gradient at
`slide_index % len(backgrounds)` and return `.copy()` — a freshly
allocated heap cell holding the same pixel content. -/
def getNotebooklmBackground (s : GenState) (cat : String) (idx : ℕ) :
    ℕ × GenState :=
  let refs := lookupRefs s.cacheIdx cat
  let r := refs.getD (idx % refs.length) 0
  let img := s.store.getD r []
  (s.store.length, ⟨s.store ++ [img], s.cacheIdx⟩)

/-- Pixel content the caller sees from one `_get_notebooklm_background`
call: the image stored at the returned reference. -/
def returnedBackground (s : GenState) (cat : String) (idx : ℕ) : Image :=
  ((getNotebooklmBackground s cat idx).2).store.getD
    (getNotebooklmBackground s cat idx).1 []

/-- One step of a rendering run: fetch a background, or render in place
onto the k-th background fetched so far (any in-place numpy mutation of a
frame derived without copying). -/
inductive RenderOp where
  | getBg (cat : String) (idx : ℕ)
  | renderOnto (k : ℕ) (f : Image → Image)

/-- Runs a sequence of operations, threading the heap and the list of
references handed out by `getBg`. -/
def runOps : List RenderOp → GenState × List ℕ → GenState × List ℕ
  | [], st => st
  | RenderOp.getBg c i :: ops, (s, refs) =>
    let res := getNotebooklmBackground s c i
    runOps ops (res.2, refs ++ [res.1])
  | RenderOp.renderOnto k f :: ops, (s, refs) =>
    match refs.get? k with
    | some r =>
      runOps ops (⟨s.store.set r (f (s.store.getD r [])), s.cacheIdx⟩, refs)
    | none => runOps ops (s, refs)

/-- The cache contents visible in a state: for each category, the pixel
content of each cached reference. -/
def cacheImages (s : GenState) : List (String × List Image) :=
  s.cacheIdx.map (fun p => (p.1, p.2.map (fun r => s.store.getD r [])))

/-- Helper: writing at an index does not change a shorter prefix. -/
theorem take_set_of_le_index {α : Type} :
    ∀ (l : List α) (i n : ℕ) (v : α), n ≤ i → (l.set i v).take n = l.take n := by
  intro l
  induction l with
  | nil => intro i n v _; rfl
  | cons a t ih =>
    intro i n v h
    cases i with
    | zero =>
      have hn : n = 0 := Nat.le_zero.mp h
      subst hn
      rfl
    | succ i =>
      cases n with
      | zero => rfl
      | succ n =>
        show a :: (t.set i v).take n = a :: t.take n
        rw [ih i n v (Nat.succ_le_succ_iff.mp h)]

/-- Helper: an in-bounds `getD` is a member. -/
theorem getD_mem_of_lt {α : Type} :
    ∀ (l : List α) (n : ℕ) (d : α), n < l.length → l.getD n d ∈ l := by
  intro l
  induction l with
  | nil => intro n d h; cases h
  | cons a t ih =>
    intro n d h
    cases n with
    | zero => exact List.mem_cons_self _ _
    | succ n =>
      exact List.mem_cons_of_mem _ (ih n d (Nat.succ_lt_succ_iff.mp h))

/-- Helper: equal prefixes give equal in-prefix lookups. -/
theorem getD_eq_of_take_eq {α : Type} {l1 l2 : List α} {N : ℕ}
    (h : l1.take N = l2.take N) (r : ℕ) (hr : r < N) (d : α) :
    l1.getD r d = l2.getD r d := by
  rw [List.getD_eq_get?, List.getD_eq_get?]
  rw [← List.get?_take hr, h, List.get?_take hr]

/-- Helper: the last cell of an extended store holds the appended image. -/
theorem getD_append_length {α : Type} (l : List α) (x d : α) :
    (l ++ [x]).getD l.length d = x := by
  rw [List.getD_eq_get?, List.get?_concat_length]
  rfl

/-- Helper: every reference recorded while folding categories stays within
the store. -/
theorem foldl_addCategory_refs :
    ∀ (l : List (String × List Image)) (s : GenState),
      (∀ p ∈ s.cacheIdx, ∀ r ∈ p.2, r < s.store.length) →
      ∀ p ∈ (l.foldl (fun s q => addCategory s q.1 q.2) s).cacheIdx,
        ∀ r ∈ p.2, r < (l.foldl (fun s q => addCategory s q.1 q.2) s).store.length := by
  intro l
  induction l with
  | nil => intro s h; exact h
  | cons a t ih =>
    intro s h
    rw [List.foldl_cons]
    apply ih
    intro p hp r hr
    unfold addCategory at hp
    rcases List.mem_append.mp hp with h1 | h1
    · have := h p h1 r hr
      unfold addCategory
      simp only [List.length_append]
      omega
    · rw [List.mem_singleton] at h1
      subst h1
      simp only [List.mem_map, List.mem_range] at hr
      obtain ⟨j, hj, rfl⟩ := hr
      unfold addCategory
      simp only [List.length_append]
      omega

/-- Helper: all cached references of a fresh generator point into its
store. -/
theorem initState_refs_lt
    (mk : ℕ → ℕ → (ℕ × ℕ × ℕ) → (ℕ × ℕ × ℕ) → String → Image) :
    ∀ p ∈ (initState mk).cacheIdx, ∀ r ∈ p.2,
      r < (initState mk).store.length := by
  apply foldl_addCategory_refs
  intro p hp
  cases hp

/-- Helper: the fresh store holds the 43 gradients of the table. -/
theorem initState_store_length
    (mk : ℕ → ℕ → (ℕ × ℕ × ℕ) → (ℕ × ℕ × ℕ) → String → Image) :
    (initState mk).store.length = 43 := by
  simp [initState, createNotebooklmBackgrounds, gradientConfigs, addCategory,
    List.enum_length]

/-- Helper: running any operation sequence preserves the cache map, never
shrinks the store, and leaves the initial prefix of the store intact. -/
theorem runOps_preserves :
    ∀ (ops : List RenderOp) (s : GenState) (refs : List ℕ) (N : ℕ),
      N ≤ s.store.length → (∀ r ∈ refs, N ≤ r) →
      (runOps ops (s, refs)).1.cacheIdx = s.cacheIdx ∧
      N ≤ (runOps ops (s, refs)).1.store.length ∧
      (runOps ops (s, refs)).1.store.take N = s.store.take N := by
  intro ops
  induction ops with
  | nil => intro s refs N h1 _; exact ⟨rfl, h1, rfl⟩
  | cons op ops ih =>
    intro s refs N h1 h2
    cases op with
    | getBg c i =>
      have hstep : runOps (RenderOp.getBg c i :: ops) (s, refs) =
          runOps ops
            (⟨s.store ++ [s.store.getD
              ((lookupRefs s.cacheIdx c).getD
                (i % (lookupRefs s.cacheIdx c).length) 0) []], s.cacheIdx⟩,
              refs ++ [s.store.length]) := rfl
      rw [hstep]
      have hlen2 : N ≤ (s.store ++ [s.store.getD
          ((lookupRefs s.cacheIdx c).getD
            (i % (lookupRefs s.cacheIdx c).length) 0) []]).length := by
        rw [List.length_append]
        omega
      have hrefs2 : ∀ r ∈ refs ++ [s.store.length], N ≤ r := by
        intro r hr
        rcases List.mem_append.mp hr with h | h
        · exact h2 r h
        · rw [List.mem_singleton] at h
          subst h
          exact h1
      obtain ⟨hc, hlen, htake⟩ := ih
        ⟨s.store ++ [s.store.getD
          ((lookupRefs s.cacheIdx c).getD
            (i % (lookupRefs s.cacheIdx c).length) 0) []], s.cacheIdx⟩
        (refs ++ [s.store.length]) N hlen2 hrefs2
      refine ⟨hc, hlen, ?_⟩
      rw [htake]
      exact List.take_append_of_le_length h1
    | renderOnto k f =>
      cases hk : refs.get? k with
      | none =>
        have hstep : runOps (RenderOp.renderOnto k f :: ops) (s, refs) =
            runOps ops (s, refs) := by
          show (match refs.get? k with
            | some r =>
              runOps ops (⟨s.store.set r (f (s.store.getD r [])), s.cacheIdx⟩, refs)
            | none => runOps ops (s, refs)) = runOps ops (s, refs)
          rw [hk]
        rw [hstep]
        exact ih s refs N h1 h2
      | some r =>
        have hrN : N ≤ r := h2 r (List.get?_mem hk)
        have hstep : runOps (RenderOp.renderOnto k f :: ops) (s, refs) =
            runOps ops
              (⟨s.store.set r (f (s.store.getD r [])), s.cacheIdx⟩, refs) := by
          show (match refs.get? k with
            | some r =>
              runOps ops (⟨s.store.set r (f (s.store.getD r [])), s.cacheIdx⟩, refs)
            | none => runOps ops (s, refs)) = _
          rw [hk]
        rw [hstep]
        have hlen2 : N ≤ (s.store.set r (f (s.store.getD r []))).length := by
          rw [List.length_set]
          exact h1
        obtain ⟨hc, hlen, htake⟩ := ih
          ⟨s.store.set r (f (s.store.getD r [])), s.cacheIdx⟩ refs N hlen2 h2
        refine ⟨hc, hlen, ?_⟩
        rw [htake]
        exact take_set_of_le_index _ _ _ _ hrN

/-- C10: the background cache after any run equals the cache built at
construction: every call returns a fresh copy, so in-place rendering on
returned frames never reaches the cached arrays. -/
theorem C10_cache_unchanged
    (mk : ℕ → ℕ → (ℕ × ℕ × ℕ) → (ℕ × ℕ × ℕ) → String → Image)
    (ops : List RenderOp) :
    cacheImages (runOps ops (initState mk, [])).1 = cacheImages (initState mk) := by
  obtain ⟨hc, hlen, htake⟩ := runOps_preserves ops (initState mk) []
    (initState mk).store.length le_rfl (by simp)
  unfold cacheImages
  rw [hc]
  apply List.map_congr_left
  intro p hp
  have : p.2.map (fun r => (runOps ops (initState mk, [])).1.store.getD r []) =
      p.2.map (fun r => (initState mk).store.getD r []) := by
    apply List.map_congr_left
    intro r hr
    exact getD_eq_of_take_eq htake r (initState_refs_lt mk p hp r hr) []
  rw [this]

/-- Helper: the category lookup yields nothing or the reference list of a
cache entry. -/
theorem lookupRefs_subset (cIdx : List (String × List ℕ)) (cat : String) :
    lookupRefs cIdx cat = [] ∨ ∃ p ∈ cIdx, lookupRefs cIdx cat = p.2 := by
  unfold lookupRefs
  cases hf : cIdx.find? (fun p => p.1 == cat) with
  | some p => exact Or.inr ⟨p, List.mem_of_find?_eq_some hf, rfl⟩
  | none =>
    cases hf2 : cIdx.find? (fun p => p.1 == "default") with
    | some p => exact Or.inr ⟨p, List.mem_of_find?_eq_some hf2, rfl⟩
    | none => exact Or.inl rfl

/-- Helper: on any state whose cache map is the constructed one and whose
store extends the constructed store, the reference selected by
`_get_notebooklm_background` points into the store. -/
theorem getBg_ref_lt
    (mk : ℕ → ℕ → (ℕ × ℕ × ℕ) → (ℕ × ℕ × ℕ) → String → Image)
    (s : GenState) (cat : String) (idx : ℕ)
    (hcache : s.cacheIdx = (initState mk).cacheIdx)
    (hstore : (initState mk).store.length ≤ s.store.length) :
    (lookupRefs s.cacheIdx cat).getD
      (idx % (lookupRefs s.cacheIdx cat).length) 0 < s.store.length := by
  have h43 := initState_store_length mk
  rcases lookupRefs_subset s.cacheIdx cat with h | ⟨p, hp, heq⟩
  · rw [h]
    show (0 : ℕ) < s.store.length
    omega
  · rw [heq]
    rcases Nat.eq_zero_or_pos p.2.length with hz | hpos
    · rw [List.length_eq_zero.mp hz]
      show (0 : ℕ) < s.store.length
      omega
    · have hmem := getD_mem_of_lt p.2 (idx % p.2.length) 0 (Nat.mod_lt idx hpos)
      rw [hcache] at hp
      have := initState_refs_lt mk p hp _ hmem
      omega

/-- C9: on any reachable generator state, fetching the background for the
same (category, slide index) twice in a row returns bit-identical pixel
content — the gradients were rendered once at construction and both calls
copy the same cached array. -/
theorem C9_background_idempotent
    (mk : ℕ → ℕ → (ℕ × ℕ × ℕ) → (ℕ × ℕ × ℕ) → String → Image)
    (ops : List RenderOp) (cat : String) (idx : ℕ) :
    returnedBackground (runOps ops (initState mk, [])).1 cat idx =
      returnedBackground
        ((getNotebooklmBackground (runOps ops (initState mk, [])).1 cat idx).2)
        cat idx := by
  obtain ⟨hc, hlen, _⟩ := runOps_preserves ops (initState mk) []
    (initState mk).store.length le_rfl (by simp)
  have hret : ∀ st : GenState,
      returnedBackground st cat idx =
        st.store.getD ((lookupRefs st.cacheIdx cat).getD
          (idx % (lookupRefs st.cacheIdx cat).length) 0) [] := by
    intro st
    unfold returnedBackground getNotebooklmBackground
    exact getD_append_length st.store _ []
  rw [hret, hret]
  have hR := getBg_ref_lt mk (runOps ops (initState mk, [])).1 cat idx hc hlen
  show (runOps ops (initState mk, [])).1.store.getD
      ((lookupRefs (runOps ops (initState mk, [])).1.cacheIdx cat).getD
        (idx % (lookupRefs (runOps ops (initState mk, [])).1.cacheIdx cat).length) 0) [] =
    ((runOps ops (initState mk, [])).1.store ++
      [(runOps ops (initState mk, [])).1.store.getD
        ((lookupRefs (runOps ops (initState mk, [])).1.cacheIdx cat).getD
          (idx % (lookupRefs (runOps ops (initState mk, [])).1.cacheIdx cat).length) 0) []]).getD
      ((lookupRefs (runOps ops (initState mk, [])).1.cacheIdx cat).getD
        (idx % (lookupRefs (runOps ops (initState mk, [])).1.cacheIdx cat).length) 0) []
  rw [List.getD_append _ _ _ _ hR]

end VideoGen
